import Mathlib

/-!
Verification of the FileMap knowledge-graph engine
(`filemap/graph/knowledge_graph.py`) against its specification.

The Python classes are shallowly embedded: the entity store
(`DataStore.files` / `DataStore.tags` dictionaries) becomes lists of
records, the `networkx.Graph` becomes an explicit node list and edge
list in insertion order, and Python floats arising as ratios of small
integers are modelled exactly as rationals.
-/

namespace FileMap

/-- `filemap.core.models.Tag` — the fields read by the graph engine.
`usage_count` is kept non-negative by every writer in the code base
(initialised to 0, incremented, and decremented via `max(0, n-1)`),
so it is modelled as `Nat`. -/
structure Tag where
  tag_id : String
  name : String
  category : String
  usage_count : Nat
deriving DecidableEq

/-- `filemap.core.models.File` — the fields read by the graph engine. -/
structure File where
  file_id : String
  name : String
  size : Nat
  tags : List String
deriving DecidableEq

/-- `filemap.storage.datastore.DataStore` — the in-memory dictionaries
`files` and `tags`, as lists in insertion order.  Dictionary keys are
the entities' own ids (`add_file`/`add_tag`/`update_*` all store under
`x.file_id`/`x.tag_id`), so lookup by key is lookup by id. -/
structure DataStore where
  files : List File
  tags : List Tag
deriving DecidableEq

/-- `DataStore.get_tag`: `self.tags.get(tag_id)`. -/
def DataStore.get_tag (s : DataStore) (id : String) : Option Tag :=
  s.tags.find? (fun t => t.tag_id == id)

/-- `DataStore.get_file`: `self.files.get(file_id)`. -/
def DataStore.get_file (s : DataStore) (id : String) : Option File :=
  s.files.find? (fun f => f.file_id == id)

/-- Node attribute dictionaries used by `KnowledgeGraph`: tag nodes get
`type="tag", name, category, usage_count`; file nodes get
`type="file", name, size, tag_count`. -/
inductive NodeData where
  | tagData (name category : String) (usage_count : Nat)
  | fileData (name : String) (size tag_count : Nat)
deriving DecidableEq

/-- Edge attribute dictionaries used by `KnowledgeGraph`:
`type="cooccurrence"` with `weight` (count) and `strength`,
`type="similarity"` with `weight` (a ratio), or `type="tagged"`. -/
inductive EdgeData where
  | cooccurrence (weight : Nat) (strength : ℚ)
  | similarity (weight : ℚ)
  | tagged
deriving DecidableEq

/-- `networkx.Graph`: nodes in insertion order with their attribute
dictionaries (`none` for a node auto-added by `add_edge`), and
undirected edges in insertion order. -/
structure Graph where
  nodes : List (String × Option NodeData)
  edges : List (String × String × EdgeData)
deriving DecidableEq

/-- `nx.Graph()` / `graph.clear()`. -/
def Graph.emptyGraph : Graph := ⟨[], []⟩

/-- `node_id in graph`. -/
def Graph.hasNode (g : Graph) (id : String) : Bool :=
  g.nodes.any (fun n => n.1 == id)

/-- `graph.add_node(id, **attrs)`: update attributes in place if the
node exists, otherwise append it. -/
def Graph.add_node (g : Graph) (id : String) (d : NodeData) : Graph :=
  if g.hasNode id then
    { g with nodes := g.nodes.map (fun n => if n.1 == id then (n.1, some d) else n) }
  else
    { g with nodes := g.nodes ++ [(id, some d)] }

/-- `add_edge` auto-adds missing endpoint nodes with no attributes. -/
def Graph.ensureNode (g : Graph) (id : String) : Graph :=
  if g.hasNode id then g else { g with nodes := g.nodes ++ [(id, none)] }

/-- Whether a stored edge is the undirected edge `{u, v}`. -/
def edgeMatches (e : String × String × EdgeData) (u v : String) : Bool :=
  (e.1 == u && e.2.1 == v) || (e.1 == v && e.2.1 == u)

/-- `graph.add_edge(u, v, **attrs)`: auto-add endpoints, then replace
the attributes of an existing `{u, v}` edge or append a new edge. -/
def Graph.add_edge (g : Graph) (u v : String) (d : EdgeData) : Graph :=
  let g1 := (g.ensureNode u).ensureNode v
  if g1.edges.any (fun e => edgeMatches e u v) then
    { g1 with edges := g1.edges.map (fun e => if edgeMatches e u v then (e.1, e.2.1, d) else e) }
  else
    { g1 with edges := g1.edges ++ [(u, v, d)] }

/-- `graph.get_edge_data(u, v)`. -/
def Graph.findEdge (g : Graph) (u v : String) : Option EdgeData :=
  (g.edges.find? (fun e => edgeMatches e u v)).map (fun e => e.2.2)

/-- `graph.degree(id)`: incident edge ends (a self-loop counts twice). -/
def Graph.degree (g : Graph) (id : String) : Nat :=
  (g.edges.map (fun e => (if e.1 == id then 1 else 0) + (if e.2.1 == id then 1 else 0))).sum

/-- `graph.neighbors(id)`, in edge insertion order. -/
def Graph.neighbors (g : Graph) (id : String) : List String :=
  g.edges.filterMap (fun e =>
    if e.1 == id then some e.2.1 else if e.2.1 == id then some e.1 else none)

/-- `graph.nodes[id]` — the attribute dictionary of a node. -/
def Graph.nodeData (g : Graph) (id : String) : Option NodeData :=
  match g.nodes.find? (fun n => n.1 == id) with
  | some nd => nd.2
  | none => none

/-- `graph.nodes[id].get("type")`. -/
def Graph.nodeType (g : Graph) (id : String) : Option String :=
  match g.nodeData id with
  | some (.tagData _ _ _) => some "tag"
  | some (.fileData _ _ _) => some "file"
  | none => none

/-- Lexicographic comparison of character lists by code point. -/
def chLt : List Char → List Char → Bool
  | [], [] => false
  | [], _ :: _ => true
  | _ :: _, [] => false
  | c :: cs, d :: ds => decide (c < d) || (c == d && chLt cs ds)

/-- Python's `<` on `str`: code-point lexicographic order, written
structurally on the character data so the kernel can evaluate it. -/
def strLt (a b : String) : Bool := chLt a.data b.data

/-- `tuple(sorted([a, b]))`: the two ids in ascending string order
(`sorted` swaps the two exactly when the second is `<` the first). -/
def sortPair (a b : String) : String × String :=
  if strLt b a then (b, a) else (a, b)

/-- The sequence of sorted position pairs produced by the nested loops
`for i, tag1_id in enumerate(file.tags): for tag2_id in file.tags[i+1:]`. -/
def pairsOf : List String → List (String × String)
  | [] => []
  | t :: rest => rest.map (sortPair t) ++ pairsOf rest

/-- `tag_cooccurrence[pair] += 1` on a `defaultdict(int)` kept as an
association list in key insertion order. -/
def bumpPair : List ((String × String) × Nat) → String × String → List ((String × String) × Nat)
  | [], p => [(p, 1)]
  | (q, n) :: rest, p => if q == p then (q, n + 1) :: rest else (q, n) :: bumpPair rest p

/-- The `tag_cooccurrence` dictionary after scanning all files. -/
def coocDict (files : List File) : List ((String × String) × Nat) :=
  files.foldl (fun m f => (pairsOf f.tags).foldl bumpPair m) []

/-- `strength = count / max_usage if max_usage > 0 else 0`. -/
def tagStrength (count max_usage : Nat) : ℚ :=
  if max_usage > 0 then (count : ℚ) / (max_usage : ℚ) else 0

/-- `KnowledgeGraph._build_tag_graph`. -/
def DataStore.build_tag_graph (s : DataStore) (g : Graph) : Graph :=
  let g1 := s.tags.foldl
    (fun g t => g.add_node t.tag_id (.tagData t.name t.category t.usage_count)) g
  (coocDict s.files).foldl (fun g pc =>
    if 2 ≤ pc.2 then
      match s.get_tag pc.1.1, s.get_tag pc.1.2 with
      | some tag1, some tag2 =>
        g.add_edge pc.1.1 pc.1.2
          (.cooccurrence pc.2 (tagStrength pc.2 (max tag1.usage_count tag2.usage_count)))
      | _, _ => g
    else g) g1

/-- `KnowledgeGraph._calculate_tag_similarity` (Jaccard index of the two
tag-id sets; 0 when either list is empty). -/
def calculate_tag_similarity (file1 file2 : File) : ℚ :=
  if file1.tags = [] ∨ file2.tags = [] then 0
  else
    let tags1 := file1.tags.toFinset
    let tags2 := file2.tags.toFinset
    let intersection := (tags1 ∩ tags2).card
    let union := (tags1 ∪ tags2).card
    if 0 < union then (intersection : ℚ) / (union : ℚ) else 0

/-- The sequence of file pairs visited by
`for i, file1 in enumerate(files): for file2 in files[i+1:]`. -/
def filePairs : List File → List (File × File)
  | [] => []
  | f :: rest => rest.map (fun f2 => (f, f2)) ++ filePairs rest

/-- `KnowledgeGraph._build_file_graph`. -/
def DataStore.build_file_graph (s : DataStore) (g : Graph) : Graph :=
  let g1 := s.files.foldl
    (fun g f => g.add_node f.file_id (.fileData f.name f.size f.tags.length)) g
  (filePairs s.files).foldl (fun g ff =>
    let similarity := calculate_tag_similarity ff.1 ff.2
    if 3 / 10 < similarity then
      g.add_edge ff.1.file_id ff.2.file_id (.similarity similarity)
    else g) g1

/-- `KnowledgeGraph._link_tags_and_files`. -/
def DataStore.link_tags_and_files (s : DataStore) (g : Graph) : Graph :=
  s.files.foldl (fun g f =>
    f.tags.foldl (fun g tag_id =>
      if g.hasNode tag_id && g.hasNode f.file_id then
        g.add_edge f.file_id tag_id .tagged
      else g) g) g

/-- `KnowledgeGraph.generate`: clears the previous graph, then builds
according to the mode string. -/
def generate (_prev : Graph) (s : DataStore) (mode : String) : Graph :=
  let g0 := Graph.emptyGraph
  let g1 := if mode = "tags" ∨ mode = "full" then s.build_tag_graph g0 else g0
  let g2 := if mode = "files" ∨ mode = "full" then s.build_file_graph g1 else g1
  if mode = "full" then s.link_tags_and_files g2 else g2

/-- Stable insertion into a list sorted descending by `key`: the new
element goes after every element whose key is `≥` its own. -/
def insertDesc {α β : Type} [LinearOrder β] (key : α → β) (x : α) : List α → List α
  | [] => [x]
  | y :: ys => if key y < key x then x :: y :: ys else y :: insertDesc key x ys

/-- Stable descending sort by `key`.  Python's `sorted(..., reverse=True)`
and `Counter.most_common` are stable descending sorts, and a stable sort
with a given key is unique, so this computes exactly their output. -/
def sortDesc {α β : Type} [LinearOrder β] (key : α → β) (l : List α) : List α :=
  l.foldl (fun acc x => insertDesc key x acc) []

/-- Python slice `l[:n]`: a non-negative `n` keeps the first `n`
elements; a negative `n` drops the last `|n|` elements. -/
def pyTake {α : Type} (n : Int) (l : List α) : List α :=
  if 0 ≤ n then l.take n.toNat else l.take (l.length - (-n).toNat)

/-- `KnowledgeGraph.find_hubs`: all nodes with their degrees, stably
sorted by degree descending, sliced with `[:top_n]`. -/
def Graph.find_hubs (g : Graph) (top_n : Int) : List (String × Nat) :=
  pyTake top_n (sortDesc Prod.snd (g.nodes.map (fun nd => (nd.1, g.degree nd.1))))

/-- `KnowledgeGraph.find_orphans`: nodes of degree ≤ 1, optionally
filtered by the `type` attribute. -/
def Graph.find_orphans (g : Graph) (node_type : Option String) : List String :=
  g.nodes.filterMap (fun nd =>
    if g.degree nd.1 ≤ 1 then
      match node_type with
      | none => some nd.1
      | some t => if g.nodeType nd.1 = some t then some nd.1 else none
    else none)

/-- `edge_data.get("weight", 1)`: the count for a cooccurrence edge, the
similarity for a similarity edge, and the default 1 for a tagged edge
(which carries no weight key). -/
def EdgeData.weightValue : EdgeData → ℚ
  | .cooccurrence w _ => (w : ℚ)
  | .similarity w => w
  | .tagged => 1

/-- `tag_scores[id] += w` on a `Counter` kept as an association list in
key insertion order. -/
def bumpScore : List (String × ℚ) → String → ℚ → List (String × ℚ)
  | [], id, w => [(id, w)]
  | (k, v) :: rest, id, w =>
    if k == id then (k, v + w) :: rest else (k, v) :: bumpScore rest id w

/-- `Counter.most_common(n)`: keys sorted by count descending, ties in
first-encountered order; `n < 0` yields an empty list. -/
def mostCommon (scores : List (String × ℚ)) (n : Int) : List (String × ℚ) :=
  if n < 0 then [] else (sortDesc Prod.snd scores).take n.toNat

/-- `KnowledgeGraph.recommend_tags`. -/
def DataStore.recommend_tags (s : DataStore) (g : Graph) (file_id : String) (top_n : Int) :
    List (String × ℚ) :=
  match s.get_file file_id with
  | none => []
  | some file =>
    let tag_scores := file.tags.foldl (fun sc tag_id =>
      if g.hasNode tag_id then
        (g.neighbors tag_id).foldl (fun sc neighbor =>
          if g.nodeType neighbor = some "tag" ∧ neighbor ∉ file.tags then
            bumpScore sc neighbor (((g.findEdge tag_id neighbor).map EdgeData.weightValue).getD 1)
          else sc) sc
      else sc) []
    mostCommon tag_scores top_n

/-- One union-find style merge step: replace the components containing
`u` and `v` by their union (no-op if they already share one). -/
def mergeComp (sets : List (List String)) (u v : String) : List (List String) :=
  match sets.find? (fun s => s.contains u) with
  | none => sets
  | some s1 =>
    if s1.contains v then sets
    else match sets.find? (fun s => s.contains v) with
      | none => sets
      | some s2 => (s1 ++ s2) :: sets.filter (fun s => !(s == s1 || s == s2))

/-- `nx.number_connected_components`: start from singleton components
and merge along every edge. -/
def Graph.number_connected_components (g : Graph) : Nat :=
  (g.edges.foldl (fun sets e => mergeComp sets e.1 e.2.1)
    (g.nodes.map (fun nd => [nd.1]))).length

/-- `nx.density`: `2m / (n(n-1))` for an undirected graph, 0 when
`m = 0` or `n ≤ 1`. -/
def nxDensity (g : Graph) : ℚ :=
  let n := g.nodes.length
  let m := g.edges.length
  if m = 0 ∨ n ≤ 1 then 0 else (2 * m : ℚ) / ((n : ℚ) * ((n : ℚ) - 1))

/-- `KnowledgeGraph.get_stats`, as the returned dictionary's key/value
pairs in insertion order (all values are numeric). -/
def Graph.get_stats (g : Graph) : List (String × ℚ) :=
  if g.nodes.length = 0 then
    [("total_nodes", 0), ("total_edges", 0), ("tag_nodes", 0), ("file_nodes", 0),
     ("avg_degree", 0), ("density", 0)]
  else
    let tag_nodes := (g.nodes.filter (fun nd => g.nodeType nd.1 == some "tag")).length
    let file_nodes := (g.nodes.filter (fun nd => g.nodeType nd.1 == some "file")).length
    [("total_nodes", (g.nodes.length : ℚ)),
     ("total_edges", (g.edges.length : ℚ)),
     ("tag_nodes", (tag_nodes : ℚ)),
     ("file_nodes", (file_nodes : ℚ)),
     ("avg_degree", ((g.nodes.map (fun nd => g.degree nd.1)).sum : ℚ) / (g.nodes.length : ℚ)),
     ("density", nxDensity g),
     ("connected_components", (g.number_connected_components : ℚ))]

/-- The spec's "co-occurrence counter over all files" for a sorted pair:
how many position pairs across all files' tag lists sort to it. -/
def pairCount (files : List File) (p : String × String) : Nat :=
  (files.map (fun f => (pairsOf f.tags).count p)).sum

/-- The spec's payload ranges (§3): a cooccurrence `strength` and a
similarity value must lie in `[0, 1]`; a tagged edge has no payload. -/
def payloadInRange : EdgeData → Prop
  | .cooccurrence _ strength => 0 ≤ strength ∧ strength ≤ 1
  | .similarity w => 0 ≤ w ∧ w ≤ 1
  | .tagged => True

/-- The similarity half of the spec's payload ranges: a similarity
payload lies in `[0, 1]`; other edge kinds are unconstrained. -/
def simPayloadInRange : EdgeData → Prop
  | .similarity w => 0 ≤ w ∧ w ≤ 1
  | _ => True

/-- `{u, v} = {a, b}` as unordered pairs of ids. -/
def sameUnordered (u v a b : String) : Prop :=
  (u = a ∧ v = b) ∨ (u = b ∧ v = a)

instance sameUnorderedDec (u v a b : String) : Decidable (sameUnordered u v a b) :=
  inferInstanceAs (Decidable ((u = a ∧ v = b) ∨ (u = b ∧ v = a)))

/-! Concrete entity stores used as witnesses and counterexamples.
`storeS` is the spec §8 scenario: tags `A` (usage 5), `B` (usage 3),
`C` (usage 1), files `F1`(tags=[A,B]), `F2`(tags=[A,B]), `F3`(tags=[A,C]),
plus `F4`(tags=[A]) from the recommendation scenario. -/

def tagA : Tag := ⟨"a", "A", "topic", 5⟩
def tagB : Tag := ⟨"b", "B", "topic", 3⟩
def tagC : Tag := ⟨"c", "C", "topic", 1⟩
def fileF1 : File := ⟨"f1", "F1", 10, ["a", "b"]⟩
def fileF2 : File := ⟨"f2", "F2", 20, ["a", "b"]⟩
def fileF3 : File := ⟨"f3", "F3", 30, ["a", "c"]⟩
def fileF4 : File := ⟨"f4", "F4", 40, ["a"]⟩
def storeS : DataStore := ⟨[fileF1, fileF2, fileF3, fileF4], [tagA, tagB, tagC]⟩

/-- A store whose stored usage counts are stale: both tags record
`usage_count = 1` although two files carry each of them. -/
def storeStale : DataStore :=
  ⟨[⟨"f1", "F1", 10, ["a", "b"]⟩, ⟨"f2", "F2", 20, ["a", "b"]⟩],
   [⟨"a", "A", "topic", 1⟩, ⟨"b", "B", "topic", 1⟩]⟩

/-- A store with a single tagless file, used to exercise the degraded
paths of the recommender. -/
def storeE : DataStore := ⟨[⟨"f9", "F9", 0, []⟩], []⟩

/-- A store with one tag id duplicated inside each file's tag list. -/
def storeDup : DataStore :=
  ⟨[⟨"f1", "F1", 10, ["a", "a"]⟩, ⟨"f2", "F2", 20, ["a", "a"]⟩],
   [⟨"a", "A", "topic", 2⟩]⟩

/-- A store with a single file whose tag list repeats two distinct ids. -/
def storeDup2 : DataStore :=
  ⟨[⟨"f1", "F1", 10, ["a", "b", "a", "b"]⟩],
   [⟨"a", "A", "topic", 2⟩, ⟨"b", "B", "topic", 2⟩]⟩

/-- The value stored for a key (0 when absent) in an association-list
counter such as `coocDict`. -/
def countOf (m : List ((String × String) × Nat)) (p : String × String) : Nat :=
  ((m.find? (fun e => e.1 == p)).map Prod.snd).getD 0

/-- The usage count behind an optional tag lookup (0 when absent). -/
def usageOf (o : Option Tag) : Nat := (o.map Tag.usage_count).getD 0

/-- The edge-adding condition of `_build_tag_graph`, as a Bool:
count ≥ 2 and both tag lookups succeed. -/
def cbTag (s : DataStore) (pc : (String × String) × Nat) : Bool :=
  decide (2 ≤ pc.2) && (s.get_tag pc.1.1).isSome && (s.get_tag pc.1.2).isSome

/-- The edge payload built by `_build_tag_graph` for a counter entry. -/
def pdTag (s : DataStore) (pc : (String × String) × Nat) : EdgeData :=
  .cooccurrence pc.2
    (tagStrength pc.2 (max (usageOf (s.get_tag pc.1.1)) (usageOf (s.get_tag pc.1.2))))

/-- The edge-adding condition of `_build_file_graph`: similarity > 0.3. -/
def cbFile (ff : File × File) : Bool :=
  decide (3 / 10 < calculate_tag_similarity ff.1 ff.2)

/-- The edge payload built by `_build_file_graph` for a file pair. -/
def pdFile (ff : File × File) : EdgeData :=
  .similarity (calculate_tag_similarity ff.1 ff.2)

/-! ### Basic facts about the graph operations -/

theorem find?_congr_mem {α : Type} (l : List α) (p q : α → Bool)
    (h : ∀ x ∈ l, p x = q x) : l.find? p = l.find? q := by
  induction l with
  | nil => rfl
  | cons x xs ih =>
    rw [List.find?_cons, List.find?_cons, h x (List.mem_cons_self x xs)]
    cases q x
    · exact ih (fun y hy => h y (List.mem_cons_of_mem x hy))
    · rfl

theorem edgeMatches_symm (e : String × String × EdgeData) (u v : String) :
    edgeMatches e u v = edgeMatches e v u := by
  simp only [edgeMatches]
  exact Bool.or_comm _ _

theorem edgeMatches_iff (e : String × String × EdgeData) (u v : String) :
    edgeMatches e u v = true ↔ sameUnordered e.1 e.2.1 u v := by
  simp [edgeMatches, sameUnordered]

theorem findEdge_comm (g : Graph) (u v : String) : g.findEdge u v = g.findEdge v u := by
  unfold Graph.findEdge
  rw [find?_congr_mem _ _ _ (fun e _ => edgeMatches_symm e u v)]

theorem ensureNode_edges (g : Graph) (id : String) : (g.ensureNode id).edges = g.edges := by
  unfold Graph.ensureNode; split <;> rfl

theorem add_node_edges (g : Graph) (id : String) (d : NodeData) :
    (g.add_node id d).edges = g.edges := by
  unfold Graph.add_node; split <;> rfl

theorem add_edge_edges (g : Graph) (u v : String) (d : EdgeData) :
    (g.add_edge u v d).edges
      = (if g.edges.any (fun e => edgeMatches e u v) then
          g.edges.map (fun e => if edgeMatches e u v then (e.1, e.2.1, d) else e)
        else g.edges ++ [(u, v, d)]) := by
  unfold Graph.add_edge
  simp only [ensureNode_edges]
  split <;> rfl

theorem sameUnordered_self (u v : String) : sameUnordered u v u v :=
  Or.inl ⟨rfl, rfl⟩

theorem sameUnordered_trans {x y u v a b : String}
    (h1 : sameUnordered x y u v) (h2 : sameUnordered x y a b) :
    sameUnordered u v a b := by
  rcases h1 with ⟨h1a, h1b⟩ | ⟨h1a, h1b⟩ <;> rcases h2 with ⟨h2a, h2b⟩ | ⟨h2a, h2b⟩ <;>
    subst_vars <;> simp [sameUnordered]

theorem edgeMatches_self (u v : String) (d : EdgeData) : edgeMatches (u, v, d) u v = true := by
  simp [edgeMatches]

theorem edgeMatches_replace (e : String × String × EdgeData) (d : EdgeData) (a b : String) :
    edgeMatches (e.1, e.2.1, d) a b = edgeMatches e a b := rfl

theorem find?_map_replace (l : List (String × String × EdgeData)) (u v : String) (d : EdgeData)
    (hany : l.any (fun e => edgeMatches e u v) = true) :
    Option.map (fun e => e.2.2)
      ((l.map (fun e => if edgeMatches e u v then (e.1, e.2.1, d) else e)).find?
        (fun e => edgeMatches e u v)) = some d := by
  induction l with
  | nil => simp at hany
  | cons e es ih =>
    by_cases he : edgeMatches e u v = true
    · rw [List.map_cons, if_pos he, List.find?_cons, edgeMatches_replace, he]
      rfl
    · rw [Bool.not_eq_true] at he
      rw [List.map_cons, if_neg (by simp [he]), List.find?_cons, edgeMatches_replace, he]
      rw [List.any_cons] at hany
      simp only [he, Bool.false_or] at hany
      exact ih hany

theorem find?_map_replace_other (l : List (String × String × EdgeData)) (u v a b : String)
    (d : EdgeData)
    (key : ∀ e : String × String × EdgeData, edgeMatches e u v = true →
      edgeMatches e a b = false) :
    (l.map (fun e => if edgeMatches e u v then (e.1, e.2.1, d) else e)).find?
        (fun e => edgeMatches e a b)
      = l.find? (fun e => edgeMatches e a b) := by
  induction l with
  | nil => rfl
  | cons e es ih =>
    by_cases he : edgeMatches e u v = true
    · rw [List.map_cons, if_pos he, List.find?_cons, List.find?_cons,
        edgeMatches_replace, key e he]
      exact ih
    · rw [List.map_cons, if_neg he, List.find?_cons, List.find?_cons]
      cases hab : edgeMatches e a b with
      | true => rfl
      | false => exact ih

theorem findEdge_add_edge_self (g : Graph) (u v : String) (d : EdgeData) :
    (g.add_edge u v d).findEdge u v = some d := by
  unfold Graph.findEdge
  rw [add_edge_edges]
  by_cases hany : g.edges.any (fun e => edgeMatches e u v) = true
  · rw [if_pos hany]
    exact find?_map_replace g.edges u v d hany
  · rw [if_neg hany]
    have hnone : g.edges.find? (fun e => edgeMatches e u v) = none := by
      rw [List.find?_eq_none]
      intro e he
      simp only [List.any_eq_true, not_exists, not_and] at hany
      simp [hany e he]
    rw [List.find?_append, hnone]
    simp [edgeMatches_self]

theorem findEdge_add_edge_other (g : Graph) (u v a b : String) (d : EdgeData)
    (h : ¬ sameUnordered u v a b) :
    (g.add_edge u v d).findEdge a b = g.findEdge a b := by
  have key : ∀ e : String × String × EdgeData, edgeMatches e u v = true →
      edgeMatches e a b = false := by
    intro e he
    by_contra hab
    rw [Bool.not_eq_false, edgeMatches_iff] at hab
    rw [edgeMatches_iff] at he
    exact h (sameUnordered_trans he hab)
  have keyNew : edgeMatches (u, v, d) a b = false :=
    key (u, v, d) (edgeMatches_self u v d)
  unfold Graph.findEdge
  rw [add_edge_edges]
  by_cases hany : g.edges.any (fun e => edgeMatches e u v) = true
  · rw [if_pos hany, find?_map_replace_other g.edges u v a b d key]
  · rw [if_neg hany, List.find?_append]
    cases hfind : g.edges.find? (fun e => edgeMatches e a b) with
    | some e => simp
    | none => simp [keyNew]

theorem add_edge_all_payload {P : EdgeData → Prop} (g : Graph) (u v : String) (d : EdgeData)
    (hg : ∀ e ∈ g.edges, P e.2.2) (hd : P d) :
    ∀ e ∈ (g.add_edge u v d).edges, P e.2.2 := by
  intro e he
  rw [add_edge_edges] at he
  by_cases hany : g.edges.any (fun e => edgeMatches e u v) = true
  · rw [if_pos hany] at he
    rcases List.mem_map.1 he with ⟨e0, he0, heq⟩
    by_cases hm : edgeMatches e0 u v = true
    · rw [if_pos hm] at heq
      rw [← heq]
      exact hd
    · rw [if_neg hm] at heq
      rw [← heq]
      exact hg e0 he0
  · rw [if_neg hany] at he
    rcases List.mem_append.1 he with h1 | h2
    · exact hg e h1
    · rcases List.mem_singleton.1 h2 with rfl
      exact hd

/-! ### Characterizing a fold of conditional `add_edge` steps -/

theorem foldl_congr_mem {α β : Type} (l : List α) (b : β) (f g : β → α → β)
    (h : ∀ acc x, x ∈ l → f acc x = g acc x) : l.foldl f b = l.foldl g b := by
  induction l generalizing b with
  | nil => rfl
  | cons x xs ih =>
    rw [List.foldl_cons, List.foldl_cons, h b x (List.mem_cons_self x xs)]
    exact ih _ (fun acc y hy => h acc y (List.mem_cons_of_mem x hy))

theorem countP_cons_true {α : Type} (p : α → Bool) (x : α) (xs : List α) (hx : p x = true) :
    (x :: xs).countP p = xs.countP p + 1 := by
  simp [List.countP_cons, hx]

theorem countP_cons_false {α : Type} (p : α → Bool) (x : α) (xs : List α) (hx : p x = false) :
    (x :: xs).countP p = xs.countP p := by
  simp [List.countP_cons, hx]

theorem foldl_add_edge_no_match {α : Type} (c : α → Bool) (pu pv : α → String)
    (pd : α → EdgeData) (L : List α) (g : Graph) (a b : String)
    (h : ∀ x ∈ L, c x = true → ¬ sameUnordered (pu x) (pv x) a b) :
    (L.foldl (fun g x => if c x then g.add_edge (pu x) (pv x) (pd x) else g) g).findEdge a b
      = g.findEdge a b := by
  induction L generalizing g with
  | nil => rfl
  | cons x xs ih =>
    rw [List.foldl_cons]
    rw [ih _ (fun y hy hc => h y (List.mem_cons_of_mem x hy) hc)]
    by_cases hc : c x = true
    · rw [if_pos hc]
      exact findEdge_add_edge_other g (pu x) (pv x) a b (pd x)
        (h x (List.mem_cons_self x xs) hc)
    · rw [if_neg hc]

theorem foldl_add_edge_char {α : Type} (c : α → Bool) (pu pv : α → String)
    (pd : α → EdgeData) (L : List α) (g : Graph) (a b : String)
    (hbase : g.findEdge a b = none)
    (huniq : L.countP (fun x => decide (sameUnordered (pu x) (pv x) a b)) ≤ 1) :
    (L.foldl (fun g x => if c x then g.add_edge (pu x) (pv x) (pd x) else g) g).findEdge a b
      = match L.find? (fun x => decide (sameUnordered (pu x) (pv x) a b)) with
        | none => none
        | some x => if c x then some (pd x) else none := by
  induction L generalizing g with
  | nil => exact hbase
  | cons x xs ih =>
    rw [List.foldl_cons, List.find?_cons]
    by_cases hx : sameUnordered (pu x) (pv x) a b
    · rw [decide_eq_true hx]
      have h0 : xs.countP (fun y => decide (sameUnordered (pu y) (pv y) a b)) = 0 := by
        rw [countP_cons_true (fun y => decide (sameUnordered (pu y) (pv y) a b)) x xs
          (decide_eq_true hx)] at huniq
        omega
      have hrest : ∀ y ∈ xs, ¬ sameUnordered (pu y) (pv y) a b := by
        intro y hy
        have := List.countP_eq_zero.1 h0 y hy
        simpa using this
      rw [foldl_add_edge_no_match c pu pv pd xs _ a b (fun y hy _ => hrest y hy)]
      show (if c x = true then g.add_edge (pu x) (pv x) (pd x) else g).findEdge a b
          = if c x = true then some (pd x) else none
      by_cases hc : c x = true
      · rw [if_pos hc, if_pos hc]
        rcases hx with ⟨rfl, rfl⟩ | ⟨rfl, rfl⟩
        · exact findEdge_add_edge_self g (pu x) (pv x) (pd x)
        · rw [findEdge_comm]
          exact findEdge_add_edge_self g (pu x) (pv x) (pd x)
      · rw [if_neg hc, if_neg hc]
        exact hbase
    · rw [decide_eq_false hx]
      have huniq' : xs.countP (fun y => decide (sameUnordered (pu y) (pv y) a b)) ≤ 1 := by
        rw [List.countP_cons] at huniq
        omega
      by_cases hc : c x = true
      · rw [if_pos hc]
        exact ih _ ((findEdge_add_edge_other g (pu x) (pv x) a b (pd x) hx).trans hbase) huniq'
      · rw [if_neg hc]
        exact ih _ hbase huniq'

/-! ### The string comparison and `sortPair` -/

theorem chLt_asymm : ∀ l1 l2, chLt l1 l2 = true → chLt l2 l1 = false
  | [], [], h => by simp [chLt] at h
  | [], _ :: _, _ => rfl
  | _ :: _, [], h => by simp [chLt] at h
  | c :: cs, d :: ds, h => by
    simp only [chLt, Bool.or_eq_true, decide_eq_true_eq, Bool.and_eq_true, beq_iff_eq] at h
    rcases h with hcd | ⟨heq, htail⟩
    · have h1 : decide (d < c) = false := decide_eq_false (lt_asymm hcd)
      have h2 : (d == c) = false := by
        rw [beq_eq_false_iff_ne]
        intro he
        exact absurd hcd (by rw [he]; exact lt_irrefl c)
      simp [chLt, h1, h2]
    · subst heq
      have h1 : decide (c < c) = false := decide_eq_false (lt_irrefl c)
      have h2 : chLt ds cs = false := chLt_asymm cs ds htail
      simp [chLt, h1, h2]

theorem chLt_connex : ∀ l1 l2, l1 ≠ l2 → chLt l1 l2 = true ∨ chLt l2 l1 = true
  | [], [], h => absurd rfl h
  | [], _ :: _, _ => Or.inl rfl
  | _ :: _, [], _ => Or.inr rfl
  | c :: cs, d :: ds, h => by
    by_cases hcd : c = d
    · subst hcd
      have htail : cs ≠ ds := by
        intro he
        exact h (by rw [he])
      rcases chLt_connex cs ds htail with h1 | h1
      · exact Or.inl (by simp [chLt, h1])
      · exact Or.inr (by simp [chLt, h1])
    · rcases lt_or_gt_of_ne hcd with hlt | hgt
      · exact Or.inl (by simp [chLt, hlt])
      · exact Or.inr (by simp [chLt, hgt])

theorem strLt_asymm (a b : String) (h : strLt a b = true) : strLt b a = false :=
  chLt_asymm a.data b.data h

theorem strLt_connex (a b : String) (h : a ≠ b) :
    strLt a b = true ∨ strLt b a = true := by
  refine chLt_connex a.data b.data ?_
  intro he
  refine h ?_
  cases a; cases b; simp_all

theorem sortPair_canon (a b : String) :
    sortPair (sortPair a b).1 (sortPair a b).2 = sortPair a b := by
  unfold sortPair
  by_cases h : strLt b a = true
  · rw [if_pos h]
    simp only
    rw [if_neg (by simp [strLt_asymm b a h])]
  · rw [if_neg h]
    simp only
    rw [if_neg h]

theorem sortPair_comm (a b : String) : sortPair a b = sortPair b a := by
  by_cases hab : a = b
  · rw [hab]
  · unfold sortPair
    rcases strLt_connex a b hab with h | h
    · rw [if_neg (by simp [strLt_asymm a b h]), if_pos h]
    · rw [if_pos h, if_neg (by simp [strLt_asymm b a h])]

theorem sortPair_eq_of_sameUnordered {k : String × String} (a b : String)
    (hcanon : sortPair k.1 k.2 = k) (h : sameUnordered k.1 k.2 a b) :
    k = sortPair a b := by
  rcases h with ⟨h1, h2⟩ | ⟨h1, h2⟩
  · rw [← hcanon, h1, h2]
  · rw [← hcanon, h1, h2, sortPair_comm]

theorem sameUnordered_of_sortPair (a b : String) :
    sameUnordered (sortPair a b).1 (sortPair a b).2 a b := by
  unfold sortPair
  split
  · exact Or.inr ⟨rfl, rfl⟩
  · exact Or.inl ⟨rfl, rfl⟩

theorem pairsOf_canon (tags : List String) :
    ∀ p ∈ pairsOf tags, sortPair p.1 p.2 = p := by
  induction tags with
  | nil => intro p hp; simp [pairsOf] at hp
  | cons t rest ih =>
    intro p hp
    rcases List.mem_append.1 hp with h1 | h2
    · rcases List.mem_map.1 h1 with ⟨u, _, rfl⟩
      exact sortPair_canon t u
    · exact ih p h2

/-! ### The co-occurrence counter dictionary -/

theorem countOf_bumpPair (m : List ((String × String) × Nat)) (p q : String × String) :
    countOf (bumpPair m q) p = countOf m p + if p = q then 1 else 0 := by
  induction m with
  | nil =>
    by_cases hpq : p = q
    · subst hpq
      simp [countOf, bumpPair]
    · simp [countOf, bumpPair, Ne.symm hpq, hpq]
  | cons e es ih =>
    rcases e with ⟨k, n⟩
    by_cases hk : k = q
    · subst hk
      rw [show bumpPair ((k, n) :: es) k = (k, n + 1) :: es by simp [bumpPair]]
      by_cases hpk : p = k
      · subst hpk
        simp [countOf]
      · simp [countOf, hpk, Ne.symm hpk]
    · rw [show bumpPair ((k, n) :: es) q = (k, n) :: bumpPair es q by simp [bumpPair, hk]]
      by_cases hpk : p = k
      · subst hpk
        simp [countOf, hk]
      · have h1 : (k == p) = false := by
          rw [beq_eq_false_iff_ne]
          exact fun h => hpk h.symm
        simp only [countOf, List.find?_cons, h1]
        exact ih

theorem countOf_foldl_bumpPair (ps : List (String × String))
    (m : List ((String × String) × Nat)) (p : String × String) :
    countOf (ps.foldl bumpPair m) p = countOf m p + ps.count p := by
  induction ps generalizing m with
  | nil => simp
  | cons q qs ih =>
    rw [List.foldl_cons, ih (bumpPair m q), countOf_bumpPair]
    rw [List.count_cons]
    have : (q == p) = decide (p = q) := by
      by_cases h : p = q
      · subst h; simp
      · simp [h, Ne.symm h]
    rw [this]
    by_cases h : p = q
    · simp [h]
      omega
    · simp [h]

theorem countOf_coocDict_aux (files : List File)
    (m : List ((String × String) × Nat)) (p : String × String) :
    countOf (files.foldl (fun m f => (pairsOf f.tags).foldl bumpPair m) m) p
      = countOf m p + pairCount files p := by
  induction files generalizing m with
  | nil => simp [pairCount]
  | cons f fs ih =>
    rw [List.foldl_cons, ih, countOf_foldl_bumpPair]
    simp [pairCount]
    omega

theorem countOf_coocDict (files : List File) (p : String × String) :
    countOf (coocDict files) p = pairCount files p := by
  unfold coocDict
  rw [countOf_coocDict_aux]
  simp [countOf]

theorem keys_bumpPair (m : List ((String × String) × Nat)) (p : String × String) :
    (bumpPair m p).map Prod.fst
      = if p ∈ m.map Prod.fst then m.map Prod.fst else m.map Prod.fst ++ [p] := by
  induction m with
  | nil => simp [bumpPair]
  | cons e es ih =>
    rcases e with ⟨k, n⟩
    by_cases hk : k = p
    · subst hk
      rw [show bumpPair ((k, n) :: es) k = (k, n + 1) :: es by simp [bumpPair]]
      simp
    · rw [show bumpPair ((k, n) :: es) p = (k, n) :: bumpPair es p by simp [bumpPair, hk]]
      simp only [List.map_cons, ih]
      by_cases hp : p ∈ es.map Prod.fst
      · rw [if_pos hp, if_pos (by simp [hp])]
      · rw [if_neg hp, if_neg (by simp [hp, Ne.symm hk])]
        rfl

theorem keys_bumpPair_nodup (m : List ((String × String) × Nat)) (p : String × String)
    (h : (m.map Prod.fst).Nodup) : ((bumpPair m p).map Prod.fst).Nodup := by
  rw [keys_bumpPair]
  by_cases hp : p ∈ m.map Prod.fst
  · rw [if_pos hp]; exact h
  · rw [if_neg hp]
    simp [List.nodup_append, h, hp]

theorem keys_bumpPair_sub (m : List ((String × String) × Nat)) (p k : String × String)
    (h : k ∈ (bumpPair m p).map Prod.fst) : k ∈ m.map Prod.fst ∨ k = p := by
  rw [keys_bumpPair] at h
  by_cases hp : p ∈ m.map Prod.fst
  · rw [if_pos hp] at h; exact Or.inl h
  · rw [if_neg hp] at h
    rcases List.mem_append.1 h with h1 | h2
    · exact Or.inl h1
    · exact Or.inr (List.mem_singleton.1 h2)

theorem keys_foldl_bumpPair_nodup (ps : List (String × String))
    (m : List ((String × String) × Nat)) (h : (m.map Prod.fst).Nodup) :
    ((ps.foldl bumpPair m).map Prod.fst).Nodup := by
  induction ps generalizing m with
  | nil => exact h
  | cons q qs ih => exact ih _ (keys_bumpPair_nodup m q h)

theorem keys_foldl_bumpPair_sub (ps : List (String × String))
    (m : List ((String × String) × Nat)) (k : String × String)
    (h : k ∈ ((ps.foldl bumpPair m).map Prod.fst)) :
    k ∈ m.map Prod.fst ∨ k ∈ ps := by
  induction ps generalizing m with
  | nil => exact Or.inl h
  | cons q qs ih =>
    rcases ih (bumpPair m q) h with h1 | h2
    · rcases keys_bumpPair_sub m q k h1 with h3 | h4
      · exact Or.inl h3
      · exact Or.inr (by rw [h4]; exact List.mem_cons_self q qs)
    · exact Or.inr (List.mem_cons_of_mem q h2)

theorem keys_coocDict_nodup (files : List File) :
    ((coocDict files).map Prod.fst).Nodup := by
  unfold coocDict
  have : ∀ (fs : List File) (m : List ((String × String) × Nat)),
      (m.map Prod.fst).Nodup →
      ((fs.foldl (fun m f => (pairsOf f.tags).foldl bumpPair m) m).map Prod.fst).Nodup := by
    intro fs
    induction fs with
    | nil => intro m h; exact h
    | cons f fs ih =>
      intro m h
      exact ih _ (keys_foldl_bumpPair_nodup (pairsOf f.tags) m h)
  exact this files [] (by simp)

theorem keys_coocDict_canon (files : List File) (k : String × String)
    (h : k ∈ (coocDict files).map Prod.fst) : sortPair k.1 k.2 = k := by
  unfold coocDict at h
  have : ∀ (fs : List File) (m : List ((String × String) × Nat)),
      (∀ k ∈ m.map Prod.fst, sortPair k.1 k.2 = k) →
      ∀ k ∈ ((fs.foldl (fun m f => (pairsOf f.tags).foldl bumpPair m) m).map Prod.fst),
        sortPair k.1 k.2 = k := by
    intro fs
    induction fs with
    | nil => intro m h; exact h
    | cons f fs ih =>
      intro m hm k hk
      refine ih _ ?_ k hk
      intro k' hk'
      rcases keys_foldl_bumpPair_sub (pairsOf f.tags) m k' hk' with h1 | h2
      · exact hm k' h1
      · exact pairsOf_canon f.tags k' h2
  exact this files [] (by simp) k h

/-! ### Lookup facts for the entity store -/

theorem find?_tag_of_mem (ts : List Tag) (t : Tag)
    (hnd : (ts.map Tag.tag_id).Nodup) (ht : t ∈ ts) :
    ts.find? (fun t0 => t0.tag_id == t.tag_id) = some t := by
  induction ts with
  | nil => simp at ht
  | cons t0 ts ih =>
    have hnd' : (∀ x ∈ ts, ¬ x.tag_id = t0.tag_id) ∧ (ts.map Tag.tag_id).Nodup := by
      simpa using hnd
    rcases List.mem_cons.1 ht with rfl | hmem
    · rw [List.find?_cons_of_pos ts (by simp)]
    · have hne : (t0.tag_id == t.tag_id) = false := by
        rw [beq_eq_false_iff_ne]
        intro he
        exact hnd'.1 t hmem (by rw [he])
      rw [List.find?_cons_of_neg ts (by simp [hne])]
      exact ih hnd'.2 hmem

theorem get_tag_of_mem (s : DataStore) (t : Tag)
    (hnd : (s.tags.map Tag.tag_id).Nodup) (ht : t ∈ s.tags) :
    s.get_tag t.tag_id = some t :=
  find?_tag_of_mem s.tags t hnd ht

theorem get_tag_id (s : DataStore) (id : String) (t : Tag)
    (h : s.get_tag id = some t) : t.tag_id = id ∧ t ∈ s.tags := by
  unfold DataStore.get_tag at h
  refine ⟨?_, List.mem_of_find?_eq_some h⟩
  have := List.find?_some h
  simpa using this

theorem get_file_id (s : DataStore) (id : String) (f : File)
    (h : s.get_file id = some f) : f.file_id = id ∧ f ∈ s.files := by
  unfold DataStore.get_file at h
  refine ⟨?_, List.mem_of_find?_eq_some h⟩
  have := List.find?_some h
  simpa using this

/-! ### Counting pairs inside a single file -/

theorem sortPair_cases (a b : String) :
    sortPair a b = (a, b) ∨ sortPair a b = (b, a) := by
  unfold sortPair
  split
  · exact Or.inr rfl
  · exact Or.inl rfl

theorem sortPair_components {t u : String} {p : String × String} (h : sortPair t u = p) :
    (p.1 = t ∧ p.2 = u) ∨ (p.1 = u ∧ p.2 = t) := by
  rcases sortPair_cases t u with h1 | h1 <;> rw [h1] at h <;> rcases h with rfl
  · exact Or.inl ⟨rfl, rfl⟩
  · exact Or.inr ⟨rfl, rfl⟩

theorem sortPair_right_inj (t u u' : String) (h : sortPair t u = sortPair t u') : u = u' := by
  unfold sortPair at h
  by_cases h1 : strLt u t = true
  · rw [if_pos h1] at h
    by_cases h2 : strLt u' t = true
    · rw [if_pos h2] at h
      exact (Prod.ext_iff.1 h).1
    · rw [if_neg h2] at h
      rcases Prod.ext_iff.1 h with ⟨ha, hb⟩
      exact ha.trans hb
  · rw [if_neg h1] at h
    by_cases h2 : strLt u' t = true
    · rw [if_pos h2] at h
      rcases Prod.ext_iff.1 h with ⟨ha, hb⟩
      exact hb.trans ha
    · rw [if_neg h2] at h
      exact (Prod.ext_iff.1 h).2

theorem mem_pairsOf_mem (tags : List String) (p : String × String)
    (h : p ∈ pairsOf tags) : p.1 ∈ tags ∧ p.2 ∈ tags := by
  induction tags with
  | nil => simp [pairsOf] at h
  | cons t rest ih =>
    rcases List.mem_append.1 h with h1 | h2
    · rcases List.mem_map.1 h1 with ⟨u, hu, heq⟩
      rcases sortPair_components heq with ⟨ha, hb⟩ | ⟨ha, hb⟩
      · exact ⟨ha ▸ List.mem_cons_self t rest, hb ▸ List.mem_cons_of_mem t hu⟩
      · exact ⟨ha ▸ List.mem_cons_of_mem t hu, hb ▸ List.mem_cons_self t rest⟩
    · rcases ih h2 with ⟨ha, hb⟩
      exact ⟨List.mem_cons_of_mem t ha, List.mem_cons_of_mem t hb⟩

theorem countP_le_one_of_nodup {α : Type} (l : List α) (p : α → Bool) (hnd : l.Nodup)
    (h : ∀ x ∈ l, ∀ y ∈ l, p x = true → p y = true → x = y) : l.countP p ≤ 1 := by
  induction l with
  | nil => simp
  | cons x xs ih =>
    rcases List.nodup_cons.1 hnd with ⟨hx, hxs⟩
    cases hp : p x
    · rw [countP_cons_false _ _ _ hp]
      exact ih hxs (fun y hy z hz hpy hpz =>
        h y (List.mem_cons_of_mem x hy) z (List.mem_cons_of_mem x hz) hpy hpz)
    · rw [countP_cons_true _ _ _ hp]
      have h0 : xs.countP p = 0 := by
        rw [List.countP_eq_zero]
        intro y hy hpy
        exact hx (h x (List.mem_cons_self x xs) y (List.mem_cons_of_mem x hy) hp hpy ▸ hy)
      omega

theorem count_pairsOf_le_one (tags : List String) (hnd : tags.Nodup) (p : String × String) :
    (pairsOf tags).count p ≤ 1 := by
  induction tags with
  | nil => simp [pairsOf]
  | cons t rest ih =>
    rcases List.nodup_cons.1 hnd with ⟨htr, hrest⟩
    have hc := List.count_append p (rest.map (sortPair t)) (pairsOf rest)
    rw [show pairsOf (t :: rest) = rest.map (sortPair t) ++ pairsOf rest from rfl, hc]
    have h1 : (rest.map (sortPair t)).count p ≤ 1 := by
      rw [List.count_eq_countP, List.countP_map]
      refine countP_le_one_of_nodup rest _ hrest ?_
      intro x hx y hy hpx hpy
      have hx' : sortPair t x = p := by simpa using hpx
      have hy' : sortPair t y = p := by simpa using hpy
      exact sortPair_right_inj t x y (hx'.trans hy'.symm)
    have h2 : (pairsOf rest).count p ≤ 1 := ih hrest
    by_cases hz : (rest.map (sortPair t)).count p = 0
    · omega
    · have hmem : p ∈ rest.map (sortPair t) :=
        List.count_pos_iff_mem.1 (Nat.pos_of_ne_zero hz)
      have h3 : (pairsOf rest).count p = 0 := by
        by_contra hnz
        have hmem2 : p ∈ pairsOf rest := List.count_pos_iff_mem.1 (Nat.pos_of_ne_zero hnz)
        rcases mem_pairsOf_mem rest p hmem2 with ⟨hp1, hp2⟩
        rcases List.mem_map.1 hmem with ⟨u, _, heq⟩
        rcases sortPair_components heq with ⟨ha, _⟩ | ⟨_, hb⟩
        · exact htr (ha ▸ hp1)
        · exact htr (hb ▸ hp2)
      omega

theorem count_pairsOf_mem (tags : List String) (p : String × String)
    (h : 0 < (pairsOf tags).count p) : p.1 ∈ tags ∧ p.2 ∈ tags :=
  mem_pairsOf_mem tags p (List.count_pos_iff_mem.1 h)

theorem pairCount_le_countP_both (files : List File) (p : String × String)
    (hdup : ∀ f ∈ files, f.tags.Nodup) :
    pairCount files p
      ≤ files.countP (fun f => f.tags.contains p.1 && f.tags.contains p.2) := by
  induction files with
  | nil => simp [pairCount]
  | cons f fs ih =>
    have hstep : pairCount (f :: fs) p = (pairsOf f.tags).count p + pairCount fs p := by
      simp [pairCount]
    rw [hstep, List.countP_cons]
    have htail := ih (fun f' hf' => hdup f' (List.mem_cons_of_mem f hf'))
    by_cases hb : (f.tags.contains p.1 && f.tags.contains p.2) = true
    · have h1 : (pairsOf f.tags).count p ≤ 1 :=
        count_pairsOf_le_one f.tags (hdup f (List.mem_cons_self f fs)) p
      rw [if_pos hb]
      omega
    · have h0 : (pairsOf f.tags).count p = 0 := by
        by_contra hnz
        rcases count_pairsOf_mem f.tags p (Nat.pos_of_ne_zero hnz) with ⟨h1, h2⟩
        exact hb (by simp [h1, h2])
      rw [if_neg hb]
      omega

/-! ### Characterizing the tag graph's edges -/

theorem foldl_add_node_edges (ts : List Tag) (g : Graph) :
    (ts.foldl (fun g t => g.add_node t.tag_id (.tagData t.name t.category t.usage_count)) g).edges
      = g.edges := by
  induction ts generalizing g with
  | nil => rfl
  | cons t ts ih => rw [List.foldl_cons, ih, add_node_edges]

theorem findEdge_eq_of_edges {g1 g2 : Graph} (h : g1.edges = g2.edges) (a b : String) :
    g1.findEdge a b = g2.findEdge a b := by
  unfold Graph.findEdge
  rw [h]

theorem build_tag_graph_eq (s : DataStore) (g : Graph) :
    s.build_tag_graph g
      = (coocDict s.files).foldl
          (fun g pc => if cbTag s pc then g.add_edge pc.1.1 pc.1.2 (pdTag s pc) else g)
          (s.tags.foldl
            (fun g t => g.add_node t.tag_id (.tagData t.name t.category t.usage_count)) g) := by
  unfold DataStore.build_tag_graph
  apply foldl_congr_mem
  intro acc pc _
  by_cases h2 : 2 ≤ pc.2
  · cases hg1 : s.get_tag pc.1.1 with
    | none => simp [cbTag, h2, hg1]
    | some t1 =>
      cases hg2 : s.get_tag pc.1.2 with
      | none => simp [cbTag, h2, hg1, hg2]
      | some t2 => simp [cbTag, pdTag, usageOf, h2, hg1, hg2]
  · simp [cbTag, h2]

theorem countP_coocDict_le_one (files : List File) (a b : String) :
    (coocDict files).countP (fun e => decide (sameUnordered e.1.1 e.1.2 a b)) ≤ 1 := by
  have hmono : ∀ e ∈ coocDict files, decide (sameUnordered e.1.1 e.1.2 a b) = true →
      (e.1 == sortPair a b) = true := by
    intro e he hd
    have hcanon := keys_coocDict_canon files e.1 (List.mem_map_of_mem Prod.fst he)
    have heq := sortPair_eq_of_sameUnordered a b hcanon (of_decide_eq_true hd)
    simp [heq]
  refine le_trans (List.countP_mono_left hmono) ?_
  refine countP_le_one_of_nodup _ _ ((keys_coocDict_nodup files).of_map) ?_
  intro x hx y hy hpx hpy
  have hx' : x.1 = sortPair a b := by simpa using hpx
  have hy' : y.1 = sortPair a b := by simpa using hpy
  exact List.inj_on_of_nodup_map (keys_coocDict_nodup files) hx hy (hx'.trans hy'.symm)

theorem find?_coocDict_key (files : List File) (a b : String) :
    (coocDict files).find? (fun e => decide (sameUnordered e.1.1 e.1.2 a b))
      = (coocDict files).find? (fun e => e.1 == sortPair a b) := by
  apply find?_congr_mem
  intro e he
  have hcanon := keys_coocDict_canon files e.1 (List.mem_map_of_mem Prod.fst he)
  by_cases hsame : sameUnordered e.1.1 e.1.2 a b
  · have h1 := sortPair_eq_of_sameUnordered a b hcanon hsame
    rw [decide_eq_true hsame, h1]
    simp
  · have h2 : (e.1 == sortPair a b) = false := by
      rw [beq_eq_false_iff_ne]
      intro hkey
      refine hsame ?_
      have h3 := sameUnordered_of_sortPair a b
      rw [← hkey] at h3
      exact h3
    simp [hsame, h2]

theorem countOf_of_find?_none (m : List ((String × String) × Nat)) (p : String × String)
    (h : m.find? (fun e => e.1 == p) = none) : countOf m p = 0 := by
  unfold countOf
  rw [h]
  rfl

theorem countOf_of_find?_some (m : List ((String × String) × Nat)) (p : String × String)
    (e : (String × String) × Nat) (h : m.find? (fun e => e.1 == p) = some e) :
    countOf m p = e.2 := by
  unfold countOf
  rw [h]
  rfl

theorem find?_key_eq (m : List ((String × String) × Nat)) (p : String × String)
    (e : (String × String) × Nat) (h : m.find? (fun e => e.1 == p) = some e) : e.1 = p := by
  have := List.find?_some h
  simpa using this

theorem findEdge_build_tag_graph (s : DataStore) (g : Graph) (a b : String)
    (hbase : g.findEdge a b = none) :
    (s.build_tag_graph g).findEdge a b
      = (if 2 ≤ pairCount s.files (sortPair a b) then
          match s.get_tag (sortPair a b).1, s.get_tag (sortPair a b).2 with
          | some tag1, some tag2 =>
            some (.cooccurrence (pairCount s.files (sortPair a b))
              (tagStrength (pairCount s.files (sortPair a b))
                (max tag1.usage_count tag2.usage_count)))
          | _, _ => none
        else none) := by
  rw [build_tag_graph_eq]
  have hbase' :
      (s.tags.foldl
        (fun g t => g.add_node t.tag_id (.tagData t.name t.category t.usage_count)) g).findEdge
        a b = none :=
    (findEdge_eq_of_edges (foldl_add_node_edges s.tags g) a b).trans hbase
  rw [foldl_add_edge_char (cbTag s) (fun pc => pc.1.1) (fun pc => pc.1.2) (pdTag s)
    (coocDict s.files) _ a b hbase' (countP_coocDict_le_one s.files a b)]
  rw [find?_coocDict_key]
  cases hfind : (coocDict s.files).find? (fun e => e.1 == sortPair a b) with
  | none =>
    have h0 : pairCount s.files (sortPair a b) = 0 := by
      rw [← countOf_coocDict]
      exact countOf_of_find?_none _ _ hfind
    rw [h0, if_neg (by omega)]
  | some entry =>
    have hkey : entry.1 = sortPair a b := find?_key_eq _ _ _ hfind
    have hval : pairCount s.files (sortPair a b) = entry.2 := by
      rw [← countOf_coocDict]
      exact countOf_of_find?_some _ _ _ hfind
    rw [hval]
    show (if cbTag s entry = true then some (pdTag s entry) else none) = _
    unfold cbTag pdTag
    rw [hkey]
    by_cases h2 : 2 ≤ entry.2
    · cases hg1 : s.get_tag (sortPair a b).1 with
      | none => simp [h2, hg1]
      | some t1 =>
        cases hg2 : s.get_tag (sortPair a b).2 with
        | none => simp [h2, hg1, hg2]
        | some t2 => simp [h2, hg1, hg2, usageOf]
    · simp [h2]

theorem generate_tags (g0 : Graph) (s : DataStore) :
    generate g0 s "tags" = s.build_tag_graph Graph.emptyGraph := by
  simp [generate]

theorem generate_files (g0 : Graph) (s : DataStore) :
    generate g0 s "files" = s.build_file_graph Graph.emptyGraph := by
  simp [generate]

theorem emptyGraph_findEdge (a b : String) : Graph.emptyGraph.findEdge a b = none := rfl

/-- C1: in tags mode, for every entity store, a cooccurrence edge between
two tag nodes exists iff the pair's co-occurrence counter over all files
is ≥ 2, with weight the raw count and strength count / max usage (0 when
both usage counts are 0); and two tags appearing together on exactly one
file (with duplicate-free tag lists) get no edge. -/
theorem claim_C1_tags_cooccurrence_iff (s : DataStore) (g0 : Graph) (t1 t2 : Tag)
    (hnd : (s.tags.map Tag.tag_id).Nodup)
    (ht1 : t1 ∈ s.tags) (ht2 : t2 ∈ s.tags) (hne : t1.tag_id ≠ t2.tag_id) :
    ((generate g0 s "tags").findEdge t1.tag_id t2.tag_id
      = (if 2 ≤ pairCount s.files (sortPair t1.tag_id t2.tag_id) then
          some (.cooccurrence (pairCount s.files (sortPair t1.tag_id t2.tag_id))
            (tagStrength (pairCount s.files (sortPair t1.tag_id t2.tag_id))
              (max t1.usage_count t2.usage_count)))
        else none))
    ∧ ((∀ f ∈ s.files, f.tags.Nodup) →
        s.files.countP
          (fun f => f.tags.contains t1.tag_id && f.tags.contains t2.tag_id) = 1 →
        (generate g0 s "tags").findEdge t1.tag_id t2.tag_id = none) := by
  have hga : s.get_tag t1.tag_id = some t1 := get_tag_of_mem s t1 hnd ht1
  have hgb : s.get_tag t2.tag_id = some t2 := get_tag_of_mem s t2 hnd ht2
  have hmain : (generate g0 s "tags").findEdge t1.tag_id t2.tag_id
      = (if 2 ≤ pairCount s.files (sortPair t1.tag_id t2.tag_id) then
          some (.cooccurrence (pairCount s.files (sortPair t1.tag_id t2.tag_id))
            (tagStrength (pairCount s.files (sortPair t1.tag_id t2.tag_id))
              (max t1.usage_count t2.usage_count)))
        else none) := by
    rw [generate_tags,
      findEdge_build_tag_graph s Graph.emptyGraph t1.tag_id t2.tag_id
        (emptyGraph_findEdge _ _)]
    rcases sortPair_cases t1.tag_id t2.tag_id with hsp | hsp
    · rw [hsp]
      simp only
      rw [hga, hgb]
    · rw [hsp]
      simp only
      rw [hga, hgb]
      rw [Nat.max_comm]
  refine ⟨hmain, ?_⟩
  intro hdup hcount1
  rw [hmain]
  have hle := pairCount_le_countP_both s.files (sortPair t1.tag_id t2.tag_id) hdup
  rcases sortPair_cases t1.tag_id t2.tag_id with hsp | hsp <;> rw [hsp] at hle
  · simp only at hle
    rw [hcount1] at hle
    rw [if_neg (by rw [hsp]; omega)]
  · simp only at hle
    have heq : (fun f : File => f.tags.contains t2.tag_id && f.tags.contains t1.tag_id)
        = (fun f : File => f.tags.contains t1.tag_id && f.tags.contains t2.tag_id) :=
      funext (fun f => Bool.and_comm _ _)
    rw [heq, hcount1] at hle
    rw [if_neg (by rw [hsp]; omega)]

/-! ### Characterizing the file graph's edges -/

theorem foldl_add_node_file_edges (fs : List File) (g : Graph) :
    (fs.foldl (fun g f => g.add_node f.file_id (.fileData f.name f.size f.tags.length)) g).edges
      = g.edges := by
  induction fs generalizing g with
  | nil => rfl
  | cons f fs ih => rw [List.foldl_cons, ih, add_node_edges]

theorem build_file_graph_eq (s : DataStore) (g : Graph) :
    s.build_file_graph g
      = (filePairs s.files).foldl
          (fun g ff => if cbFile ff then g.add_edge ff.1.file_id ff.2.file_id (pdFile ff) else g)
          (s.files.foldl
            (fun g f => g.add_node f.file_id (.fileData f.name f.size f.tags.length)) g) := by
  unfold DataStore.build_file_graph
  apply foldl_congr_mem
  intro acc ff _
  by_cases h : 3 / 10 < calculate_tag_similarity ff.1 ff.2
  · simp [cbFile, pdFile, h]
  · simp [cbFile, h]

theorem mem_filePairs_mem (fs : List File) (ff : File × File)
    (h : ff ∈ filePairs fs) : ff.1 ∈ fs ∧ ff.2 ∈ fs := by
  induction fs with
  | nil => simp [filePairs] at h
  | cons f rest ih =>
    rcases List.mem_append.1 h with h1 | h2
    · rcases List.mem_map.1 h1 with ⟨f2, hf2, heq⟩
      rw [← heq]
      exact ⟨List.mem_cons_self f rest, List.mem_cons_of_mem f hf2⟩
    · rcases ih h2 with ⟨ha, hb⟩
      exact ⟨List.mem_cons_of_mem f ha, List.mem_cons_of_mem f hb⟩

theorem filePairs_mem_of_mem (files : List File) (f1 f2 : File)
    (h1 : f1 ∈ files) (h2 : f2 ∈ files) (hne : f1 ≠ f2) :
    (f1, f2) ∈ filePairs files ∨ (f2, f1) ∈ filePairs files := by
  induction files with
  | nil => simp at h1
  | cons f fs ih =>
    rcases List.mem_cons.1 h1 with rfl | hm1
    · rcases List.mem_cons.1 h2 with rfl | hm2
      · exact absurd rfl hne
      · exact Or.inl (List.mem_append_left _ (List.mem_map_of_mem _ hm2))
    · rcases List.mem_cons.1 h2 with rfl | hm2
      · exact Or.inr (List.mem_append_left _ (List.mem_map_of_mem _ hm1))
      · rcases ih hm1 hm2 with h | h
        · exact Or.inl (List.mem_append_right _ h)
        · exact Or.inr (List.mem_append_right _ h)

theorem countP_filePairs_le_one (files : List File)
    (hnd : (files.map File.file_id).Nodup) (a b : String) :
    (filePairs files).countP
      (fun ff => decide (sameUnordered ff.1.file_id ff.2.file_id a b)) ≤ 1 := by
  induction files with
  | nil => simp [filePairs]
  | cons f fs ih =>
    have hnd' : (∀ x ∈ fs, ¬ x.file_id = f.file_id) ∧ (fs.map File.file_id).Nodup := by
      simpa using hnd
    rw [show filePairs (f :: fs) = fs.map (fun f2 => (f, f2)) ++ filePairs fs from rfl,
      List.countP_append]
    have hmap : (fs.map (fun f2 => (f, f2))).countP
        (fun ff => decide (sameUnordered ff.1.file_id ff.2.file_id a b))
        = fs.countP (fun f2 => decide (sameUnordered f.file_id f2.file_id a b)) := by
      rw [List.countP_map]
      rfl
    rw [hmap]
    by_cases hf : f.file_id = a ∨ f.file_id = b
    · have htail0 : (filePairs fs).countP
          (fun ff => decide (sameUnordered ff.1.file_id ff.2.file_id a b)) = 0 := by
        rw [List.countP_eq_zero]
        intro ff hff hdec
        have hsame := of_decide_eq_true hdec
        have hmem := mem_filePairs_mem fs ff hff
        rcases hf with hfa | hfb
        · rcases hsame with ⟨hx1, _⟩ | ⟨_, hx2⟩
          · exact hnd'.1 ff.1 hmem.1 (hx1.trans hfa.symm)
          · exact hnd'.1 ff.2 hmem.2 (hx2.trans hfa.symm)
        · rcases hsame with ⟨_, hx2⟩ | ⟨hx1, _⟩
          · exact hnd'.1 ff.2 hmem.2 (hx2.trans hfb.symm)
          · exact hnd'.1 ff.1 hmem.1 (hx1.trans hfb.symm)
      have hmle : fs.countP (fun f2 => decide (sameUnordered f.file_id f2.file_id a b)) ≤ 1 := by
        refine countP_le_one_of_nodup fs _ hnd'.2.of_map ?_
        intro x hx y hy hpx hpy
        have hsx := of_decide_eq_true hpx
        have hsy := of_decide_eq_true hpy
        have hxy : x.file_id = y.file_id := by
          rcases hsx with ⟨hx1, hx2⟩ | ⟨hx1, hx2⟩ <;> rcases hsy with ⟨hy1, hy2⟩ | ⟨hy1, hy2⟩
          · exact hx2.trans hy2.symm
          · rw [hx2, hy2]
            exact (hx1.symm.trans hy1).symm
          · rw [hx2, hy2]
            exact hy1.symm.trans hx1
          · exact hx2.trans hy2.symm
        exact List.inj_on_of_nodup_map hnd'.2 hx hy hxy
      rw [htail0]
      omega
    · have hmap0 : fs.countP (fun f2 => decide (sameUnordered f.file_id f2.file_id a b)) = 0 := by
        rw [List.countP_eq_zero]
        intro f2 _ hdec
        rcases of_decide_eq_true hdec with ⟨hx1, _⟩ | ⟨hx1, _⟩
        · exact hf (Or.inl hx1)
        · exact hf (Or.inr hx1)
      rw [hmap0]
      have := ih hnd'.2
      omega

theorem find?_pred {α : Type} (l : List α) (p : α → Bool) (x : α) (h : l.find? p = some x) :
    p x = true := List.find?_some h

theorem calculate_tag_similarity_comm (f1 f2 : File) :
    calculate_tag_similarity f1 f2 = calculate_tag_similarity f2 f1 := by
  by_cases h : f1.tags = [] ∨ f2.tags = []
  · simp only [calculate_tag_similarity]
    rw [if_pos h, if_pos h.symm]
  · simp only [calculate_tag_similarity]
    rw [if_neg h, if_neg (fun hh => h (Or.symm hh)), Finset.inter_comm, Finset.union_comm]

/-- C5: in files mode, for every entity store, a similarity edge between
two distinct file nodes exists iff the Jaccard similarity of their tag-id
sets exceeds 0.3, and the edge's weight equals that similarity. -/
theorem claim_C5_files_similarity_iff (s : DataStore) (g0 : Graph) (f1 f2 : File)
    (hnd : (s.files.map File.file_id).Nodup)
    (hf1 : f1 ∈ s.files) (hf2 : f2 ∈ s.files) (hne : f1.file_id ≠ f2.file_id) :
    (generate g0 s "files").findEdge f1.file_id f2.file_id
      = (if 3 / 10 < calculate_tag_similarity f1 f2
          then some (.similarity (calculate_tag_similarity f1 f2)) else none) := by
  rw [generate_files, build_file_graph_eq]
  have hbase' :
      (s.files.foldl
        (fun g f => g.add_node f.file_id (.fileData f.name f.size f.tags.length))
        Graph.emptyGraph).findEdge f1.file_id f2.file_id = none :=
    (findEdge_eq_of_edges (foldl_add_node_file_edges s.files Graph.emptyGraph) _ _).trans
      (emptyGraph_findEdge _ _)
  rw [foldl_add_edge_char cbFile (fun ff => ff.1.file_id) (fun ff => ff.2.file_id) pdFile
    (filePairs s.files) _ f1.file_id f2.file_id hbase'
    (countP_filePairs_le_one s.files hnd f1.file_id f2.file_id)]
  cases hfind : (filePairs s.files).find?
      (fun ff => decide (sameUnordered ff.1.file_id ff.2.file_id f1.file_id f2.file_id)) with
  | none =>
    exfalso
    have hnomatch := List.find?_eq_none.1 hfind
    have hne' : f1 ≠ f2 := fun h => hne (congrArg File.file_id h)
    rcases filePairs_mem_of_mem s.files f1 f2 hf1 hf2 hne' with hmem | hmem
    · exact hnomatch _ hmem (decide_eq_true (Or.inl ⟨rfl, rfl⟩))
    · exact hnomatch _ hmem (decide_eq_true (Or.inr ⟨rfl, rfl⟩))
  | some ff =>
    have hp := find?_pred _ _ _ hfind
    have hsame : sameUnordered ff.1.file_id ff.2.file_id f1.file_id f2.file_id :=
      of_decide_eq_true hp
    have hmemff := mem_filePairs_mem s.files ff (List.mem_of_find?_eq_some hfind)
    show (if cbFile ff = true then some (pdFile ff) else none) = _
    unfold cbFile pdFile
    rcases hsame with ⟨h1, h2⟩ | ⟨h1, h2⟩
    · have e1 : ff.1 = f1 := List.inj_on_of_nodup_map hnd hmemff.1 hf1 h1
      have e2 : ff.2 = f2 := List.inj_on_of_nodup_map hnd hmemff.2 hf2 h2
      rw [e1, e2]
      by_cases h : 3 / 10 < calculate_tag_similarity f1 f2
      · simp [h]
      · simp [h]
    · have e1 : ff.1 = f2 := List.inj_on_of_nodup_map hnd hmemff.1 hf2 h1
      have e2 : ff.2 = f1 := List.inj_on_of_nodup_map hnd hmemff.2 hf1 h2
      rw [e1, e2, calculate_tag_similarity_comm f2 f1]
      by_cases h : 3 / 10 < calculate_tag_similarity f1 f2
      · simp [h]
      · simp [h]

/-! ### Claims about modes, stats, idempotence and duplicates -/

/-- C9: calling build("tags") twice in a row with unchanged entity-store
data yields identical graphs — the second build discards all prior graph
state, so the result does not depend on the previous graph at all. -/
theorem claim_C9_build_tags_idempotent (g0 : Graph) (s : DataStore) :
    generate (generate g0 s "tags") s "tags" = generate g0 s "tags" := rfl

unseal Rat.mul Rat.inv Rat.add in
/-- C2 counterexample: on a nonempty store, build with the invalid mode
string "bogus" silently returns an empty graph instead of failing fast,
and find_hubs with topN = -1 silently returns a sliced ranking (all but
the last entry) instead of signalling an invalid argument. -/
theorem claim_C2_counterexample :
    generate Graph.emptyGraph storeS "bogus" = Graph.emptyGraph
      ∧ (generate Graph.emptyGraph storeS "tags").find_hubs (-1)
          = [("a", 1), ("b", 1)] := by
  exact ⟨by decide, by decide⟩

/-- C2 (amended): an unrecognized mode string yields an empty graph with
no error raised, and find_hubs with a negative topN applies Python slice
semantics, returning the degree-ranked list with its last |topN| entries
dropped, with no error raised. -/
theorem claim_C2_amended :
    (∀ (g0 : Graph) (s : DataStore) (mode : String),
      mode ≠ "tags" → mode ≠ "files" → mode ≠ "full" →
        generate g0 s mode = Graph.emptyGraph)
    ∧ (∀ (g : Graph) (n : Int), n < 0 →
        g.find_hubs n
          = (sortDesc Prod.snd (g.nodes.map (fun nd => (nd.1, g.degree nd.1)))).take
              ((sortDesc Prod.snd (g.nodes.map (fun nd => (nd.1, g.degree nd.1)))).length
                - (-n).toNat)) := by
  constructor
  · intro g0 s mode h1 h2 h3
    simp [generate, h1, h2, h3]
  · intro g n hn
    unfold Graph.find_hubs pyTake
    rw [if_neg (by omega)]

unseal Rat.mul Rat.inv Rat.add in
/-- C3: on the empty graph get_stats returns a six-field dictionary with
all values zero and no connected_components key at all, while on a
nonempty graph it returns the full seven-field shape — so the claimed
always-seven-field shape with a zero component count fails precisely on
the empty graph. -/
theorem claim_C3_empty_stats_missing_components :
    Graph.get_stats Graph.emptyGraph
      = [("total_nodes", 0), ("total_edges", 0), ("tag_nodes", 0), ("file_nodes", 0),
         ("avg_degree", 0), ("density", 0)]
    ∧ (Graph.get_stats Graph.emptyGraph).find? (fun kv => kv.1 == "connected_components")
        = none
    ∧ (Graph.get_stats (generate Graph.emptyGraph storeS "tags")).map Prod.fst
        = ["total_nodes", "total_edges", "tag_nodes", "file_nodes", "avg_degree",
           "density", "connected_components"] := by
  exact ⟨by decide, by decide, by decide⟩

unseal Rat.mul Rat.inv Rat.add in
/-- C10: pairs are counted by list position: a tag id occurring at two
positions of a file's tag list pairs with itself, and once that counter
reaches 2 (here: two files tagged [a, a]) a self-loop cooccurrence edge
appears; and a single file tagged [a, b, a, b] alone drives the (a, b)
counter to 4 ≥ 2, producing an edge from that one file. -/
theorem claim_C10_positional_duplicate_pairs :
    pairCount storeDup.files (sortPair "a" "a") = 2
    ∧ (generate Graph.emptyGraph storeDup "tags").findEdge "a" "a"
        = some (.cooccurrence 2 1)
    ∧ pairCount storeDup2.files (sortPair "a" "b") = 4
    ∧ (generate Graph.emptyGraph storeDup2 "tags").findEdge "a" "b"
        = some (.cooccurrence 4 2) := by
  exact ⟨by decide, by decide, by decide, by decide⟩

unseal Rat.mul Rat.inv Rat.add in
/-- C4 counterexample: with stale stored usage counts (both 1, while two
files carry both tags) the built tags graph holds a cooccurrence edge of
strength 2, outside [0, 1]. -/
theorem claim_C4_counterexample :
    (generate Graph.emptyGraph storeStale "tags").findEdge "a" "b"
        = some (.cooccurrence 2 2)
    ∧ ¬ payloadInRange (.cooccurrence 2 2) := by
  refine ⟨by decide, ?_⟩
  intro h
  have h2 := h.2
  norm_num at h2

/-- C8: recommend_tags degrades to an empty list when the file id does
not exist in the store or when the file's tag list is empty; being a
total function, it cannot raise. -/
theorem claim_C8_recommend_missing_or_empty (s : DataStore) (g : Graph) (fid : String)
    (n : Int) :
    (s.get_file fid = none → s.recommend_tags g fid n = [])
    ∧ (∀ f : File, s.get_file fid = some f → f.tags = [] →
        s.recommend_tags g fid n = []) := by
  constructor
  · intro h
    unfold DataStore.recommend_tags
    rw [h]
  · intro f hf htags
    unfold DataStore.recommend_tags
    rw [hf]
    simp [htags, mostCommon, sortDesc]

/-- C6: find_orphans returns exactly the nodes of the requested kind
whose degree is ≤ 1 — never a node of degree ≥ 2, and degree-1 nodes are
included, since the bound is ≤ 1 and not = 0. -/
theorem claim_C6_orphans_iff (g : Graph) (filt : Option String) (id : String) :
    id ∈ g.find_orphans filt
      ↔ (id ∈ g.nodes.map Prod.fst ∧ g.degree id ≤ 1
          ∧ ∀ t, filt = some t → g.nodeType id = some t) := by
  unfold Graph.find_orphans
  rw [List.mem_filterMap]
  constructor
  · rintro ⟨nd, hmem, hf⟩
    by_cases hdeg : g.degree nd.1 ≤ 1
    · rw [if_pos hdeg] at hf
      cases filt with
      | none =>
        obtain rfl : nd.1 = id := by simpa using hf
        exact ⟨List.mem_map_of_mem _ hmem, hdeg, fun t ht => by cases ht⟩
      | some t =>
        have hf' : (if g.nodeType nd.1 = some t then some nd.1 else none) = some id := hf
        by_cases hty : g.nodeType nd.1 = some t
        · rw [if_pos hty] at hf'
          obtain rfl : nd.1 = id := by simpa using hf'
          exact ⟨List.mem_map_of_mem _ hmem, hdeg, fun t' ht' => by cases ht'; exact hty⟩
        · rw [if_neg hty] at hf'
          cases hf'
    · rw [if_neg hdeg] at hf
      cases hf
  · rintro ⟨hid, hdeg, hfilt⟩
    rcases List.mem_map.1 hid with ⟨nd, hmem, hfst⟩
    refine ⟨nd, hmem, ?_⟩
    rw [hfst, if_pos hdeg]
    cases filt with
    | none => rfl
    | some t =>
      show (if g.nodeType id = some t then some id else none) = some id
      rw [if_pos (hfilt t rfl)]

/-! ### The recommendation scores exclude existing tags -/

theorem mem_insertDesc {α β : Type} [LinearOrder β] (key : α → β) (x y : α) (l : List α) :
    y ∈ insertDesc key x l ↔ y = x ∨ y ∈ l := by
  induction l with
  | nil => simp [insertDesc]
  | cons z zs ih =>
    unfold insertDesc
    by_cases h : key z < key x
    · rw [if_pos h]
      simp
    · rw [if_neg h]
      simp only [List.mem_cons, ih]
      tauto

theorem mem_sortDesc {α β : Type} [LinearOrder β] (key : α → β) (l : List α) (y : α) :
    y ∈ sortDesc key l ↔ y ∈ l := by
  have haux : ∀ (l : List α) (acc : List α),
      y ∈ l.foldl (fun acc x => insertDesc key x acc) acc ↔ y ∈ acc ∨ y ∈ l := by
    intro l
    induction l with
    | nil => simp
    | cons x xs ih =>
      intro acc
      rw [List.foldl_cons, ih, mem_insertDesc]
      simp only [List.mem_cons]
      tauto
  rw [sortDesc, haux]
  simp

theorem mem_mostCommon (scores : List (String × ℚ)) (n : Int) (p : String × ℚ)
    (h : p ∈ mostCommon scores n) : p ∈ scores := by
  unfold mostCommon at h
  by_cases hn : n < 0
  · rw [if_pos hn] at h
    cases h
  · rw [if_neg hn] at h
    exact (mem_sortDesc Prod.snd scores p).1 (List.mem_of_mem_take h)

theorem mem_bumpScore (sc : List (String × ℚ)) (id : String) (w : ℚ) (p : String × ℚ)
    (h : p ∈ bumpScore sc id w) : p.1 = id ∨ p ∈ sc := by
  induction sc with
  | nil =>
    rcases List.mem_singleton.1 h with rfl
    exact Or.inl rfl
  | cons e es ih =>
    rcases e with ⟨k, v⟩
    by_cases hk : k = id
    · rw [show bumpScore ((k, v) :: es) id w = (k, v + w) :: es by simp [bumpScore, hk]] at h
      rcases List.mem_cons.1 h with rfl | hm
      · exact Or.inl hk
      · exact Or.inr (List.mem_cons_of_mem _ hm)
    · rw [show bumpScore ((k, v) :: es) id w = (k, v) :: bumpScore es id w by
        simp [bumpScore, hk]] at h
      rcases List.mem_cons.1 h with rfl | hm
      · exact Or.inr (List.mem_cons_self _ _)
      · rcases ih hm with h1 | h1
        · exact Or.inl h1
        · exact Or.inr (List.mem_cons_of_mem _ h1)

theorem foldl_inv {α β : Type} (motive : β → Prop) (l : List α) (b : β) (f : β → α → β)
    (hb : motive b) (hstep : ∀ acc x, x ∈ l → motive acc → motive (f acc x)) :
    motive (l.foldl f b) := by
  induction l generalizing b with
  | nil => exact hb
  | cons x xs ih =>
    exact ih (f b x) (hstep b x (List.mem_cons_self x xs) hb)
      (fun acc y hy hacc => hstep acc y (List.mem_cons_of_mem x hy) hacc)

theorem scores_not_in_tags (g : Graph) (f : File) :
    ∀ p ∈ (f.tags.foldl (fun sc tag_id =>
      if g.hasNode tag_id then
        (g.neighbors tag_id).foldl (fun sc neighbor =>
          if g.nodeType neighbor = some "tag" ∧ neighbor ∉ f.tags then
            bumpScore sc neighbor (((g.findEdge tag_id neighbor).map EdgeData.weightValue).getD 1)
          else sc) sc
      else sc) ([] : List (String × ℚ))), p.1 ∉ f.tags := by
  refine foldl_inv (fun sc => ∀ p ∈ sc, p.1 ∉ f.tags) f.tags ([] : List (String × ℚ)) _
    (fun p hp => absurd hp (List.not_mem_nil p)) ?_
  intro sc tid _ hsc
  by_cases hn : g.hasNode tid = true
  · rw [if_pos hn]
    refine foldl_inv (fun sc => ∀ p ∈ sc, p.1 ∉ f.tags) (g.neighbors tid) sc _ hsc ?_
    intro sc' nb _ hsc'
    by_cases hcond : g.nodeType nb = some "tag" ∧ nb ∉ f.tags
    · rw [if_pos hcond]
      intro p hp
      rcases mem_bumpScore sc' nb _ p hp with h1 | h1
      · rw [h1]
        exact hcond.2
      · exact hsc' p h1
    · rw [if_neg hcond]
      exact hsc'
  · rw [if_neg hn]
    exact hsc

/-- C7: for every graph, file id and topN, no tag id returned by
recommend_tags is already in the target file's tag list. -/
theorem claim_C7_recommend_excludes_existing (s : DataStore) (g : Graph) (fid : String)
    (n : Int) (f : File) (hf : s.get_file fid = some f) :
    ∀ p ∈ s.recommend_tags g fid n, p.1 ∉ f.tags := by
  intro p hp
  unfold DataStore.recommend_tags at hp
  rw [hf] at hp
  exact scores_not_in_tags g f p (mem_mostCommon _ n p hp)

/-! ### Payload ranges -/

theorem calculate_tag_similarity_range (f1 f2 : File) :
    0 ≤ calculate_tag_similarity f1 f2 ∧ calculate_tag_similarity f1 f2 ≤ 1 := by
  simp only [calculate_tag_similarity]
  by_cases h : f1.tags = [] ∨ f2.tags = []
  · rw [if_pos h]
    norm_num
  · rw [if_neg h]
    by_cases hu : 0 < (f1.tags.toFinset ∪ f2.tags.toFinset).card
    · rw [if_pos hu]
      constructor
      · exact div_nonneg (Nat.cast_nonneg _) (Nat.cast_nonneg _)
      · rw [div_le_one (by exact_mod_cast hu)]
        exact_mod_cast Finset.card_le_card
          (le_trans Finset.inter_subset_left Finset.subset_union_left)
    · rw [if_neg hu]
      norm_num

theorem tagStrength_range (c m : Nat) (hcm : c ≤ m) :
    0 ≤ tagStrength c m ∧ tagStrength c m ≤ 1 := by
  unfold tagStrength
  by_cases hm : 0 < m
  · rw [if_pos hm]
    constructor
    · exact div_nonneg (Nat.cast_nonneg _) (Nat.cast_nonneg _)
    · rw [div_le_one (by exact_mod_cast hm)]
      exact_mod_cast hcm
  · rw [if_neg hm]
    norm_num

theorem countOf_of_mem (m : List ((String × String) × Nat)) (e : (String × String) × Nat)
    (hnd : (m.map Prod.fst).Nodup) (he : e ∈ m) : countOf m e.1 = e.2 := by
  induction m with
  | nil => cases he
  | cons x xs ih =>
    rcases List.nodup_cons.1 hnd with ⟨hnd1, hnd2⟩
    rcases List.mem_cons.1 he with rfl | hm
    · unfold countOf
      rw [List.find?_cons_of_pos xs (by simp)]
      rfl
    · have hne : (x.1 == e.1) = false := by
        rw [beq_eq_false_iff_ne]
        intro hkey
        exact hnd1 (hkey ▸ List.mem_map_of_mem Prod.fst hm)
      unfold countOf
      rw [List.find?_cons_of_neg xs (by simp [hne])]
      exact ih hnd2 hm

theorem link_tags_and_files_payload (s : DataStore) (g : Graph) {P : EdgeData → Prop}
    (htagged : P .tagged) (hg : ∀ e ∈ g.edges, P e.2.2) :
    ∀ e ∈ (s.link_tags_and_files g).edges, P e.2.2 := by
  unfold DataStore.link_tags_and_files
  refine foldl_inv (fun g : Graph => ∀ e ∈ g.edges, P e.2.2) s.files g _ hg ?_
  intro acc f _ hacc
  refine foldl_inv (fun g : Graph => ∀ e ∈ g.edges, P e.2.2) f.tags acc _ hacc ?_
  intro acc' tid _ hacc'
  by_cases hc : (acc'.hasNode tid && acc'.hasNode f.file_id) = true
  · rw [if_pos hc]
    exact add_edge_all_payload acc' _ _ _ hacc' htagged
  · rw [if_neg hc]
    exact hacc'

theorem build_file_graph_payload (s : DataStore) (g : Graph) {P : EdgeData → Prop}
    (hsim : ∀ ff : File × File, P (pdFile ff)) (hg : ∀ e ∈ g.edges, P e.2.2) :
    ∀ e ∈ (s.build_file_graph g).edges, P e.2.2 := by
  rw [build_file_graph_eq]
  refine foldl_inv (fun g : Graph => ∀ e ∈ g.edges, P e.2.2) (filePairs s.files) _ _ ?_ ?_
  · intro e he
    rw [foldl_add_node_file_edges] at he
    exact hg e he
  · intro acc ff _ hacc
    by_cases hc : cbFile ff = true
    · rw [if_pos hc]
      exact add_edge_all_payload acc _ _ _ hacc (hsim ff)
    · rw [if_neg hc]
      exact hacc

theorem build_tag_graph_payload (s : DataStore) (g : Graph) {P : EdgeData → Prop}
    (hco : ∀ pc ∈ coocDict s.files, cbTag s pc = true → P (pdTag s pc))
    (hg : ∀ e ∈ g.edges, P e.2.2) :
    ∀ e ∈ (s.build_tag_graph g).edges, P e.2.2 := by
  rw [build_tag_graph_eq]
  refine foldl_inv (fun g : Graph => ∀ e ∈ g.edges, P e.2.2) (coocDict s.files) _ _ ?_ ?_
  · intro e he
    rw [foldl_add_node_edges] at he
    exact hg e he
  · intro acc pc hpc hacc
    by_cases hc : cbTag s pc = true
    · rw [if_pos hc]
      exact add_edge_all_payload acc _ _ _ hacc (hco pc hpc hc)
    · rw [if_neg hc]
      exact hacc

theorem generate_payload (g0 : Graph) (s : DataStore) (mode : String) {P : EdgeData → Prop}
    (htagged : P .tagged)
    (hco : ∀ pc ∈ coocDict s.files, cbTag s pc = true → P (pdTag s pc))
    (hsim : ∀ ff : File × File, P (pdFile ff)) :
    ∀ e ∈ (generate g0 s mode).edges, P e.2.2 := by
  simp only [generate]
  have hempty : ∀ e ∈ Graph.emptyGraph.edges, P e.2.2 := fun e he => absurd he
    (List.not_mem_nil e)
  by_cases h1 : mode = "tags" ∨ mode = "full"
  · rw [if_pos h1]
    by_cases h2 : mode = "files" ∨ mode = "full"
    · rw [if_pos h2]
      by_cases h3 : mode = "full"
      · rw [if_pos h3]
        exact link_tags_and_files_payload s _ htagged
          (build_file_graph_payload s _ hsim (build_tag_graph_payload s _ hco hempty))
      · rw [if_neg h3]
        exact build_file_graph_payload s _ hsim (build_tag_graph_payload s _ hco hempty)
    · rw [if_neg h2]
      by_cases h3 : mode = "full"
      · rw [if_pos h3]
        exact link_tags_and_files_payload s _ htagged
          (build_tag_graph_payload s _ hco hempty)
      · rw [if_neg h3]
        exact build_tag_graph_payload s _ hco hempty
  · rw [if_neg h1]
    by_cases h2 : mode = "files" ∨ mode = "full"
    · rw [if_pos h2]
      by_cases h3 : mode = "full"
      · rw [if_pos h3]
        exact link_tags_and_files_payload s _ htagged
          (build_file_graph_payload s _ hsim hempty)
      · rw [if_neg h3]
        exact build_file_graph_payload s _ hsim hempty
    · rw [if_neg h2]
      by_cases h3 : mode = "full"
      · rw [if_pos h3]
        exact link_tags_and_files_payload s _ htagged hempty
      · rw [if_neg h3]
        exact hempty

/-- C4 (amended): every similarity edge payload of a built graph lies in
[0,1] unconditionally; every cooccurrence strength lies in [0,1] provided
each file's tag list is duplicate-free and each tag's stored usage_count
is at least the number of files carrying it (with stale usage counts the
strength can exceed 1, see the counterexample). -/
theorem claim_C4_payload_ranges (g0 : Graph) (s : DataStore) (mode : String) :
    (∀ e ∈ (generate g0 s mode).edges, simPayloadInRange e.2.2)
    ∧ ((∀ f ∈ s.files, f.tags.Nodup) →
       (∀ t ∈ s.tags, s.files.countP (fun f => f.tags.contains t.tag_id) ≤ t.usage_count) →
       ∀ e ∈ (generate g0 s mode).edges, payloadInRange e.2.2) := by
  constructor
  · refine generate_payload g0 s mode trivial (fun pc _ _ => trivial) ?_
    intro ff
    show simPayloadInRange (.similarity (calculate_tag_similarity ff.1 ff.2))
    exact calculate_tag_similarity_range ff.1 ff.2
  · intro hdup husage
    refine generate_payload g0 s mode trivial ?_ ?_
    · intro pc hpc hc
      have hc' := hc
      unfold cbTag at hc'
      simp only [Bool.and_eq_true, decide_eq_true_eq, Option.isSome_iff_exists] at hc'
      obtain ⟨⟨h2, t1, hg1⟩, t2, hg2⟩ := hc'
      have hval : countOf (coocDict s.files) pc.1 = pc.2 :=
        countOf_of_mem _ pc (keys_coocDict_nodup s.files) hpc
      have hpcount : pairCount s.files pc.1 = pc.2 := by
        rw [← countOf_coocDict]
        exact hval
      have ht1 := get_tag_id s pc.1.1 t1 hg1
      have hchain : pc.2 ≤ t1.usage_count := by
        have hboth := pairCount_le_countP_both s.files pc.1 hdup
        have hmono : s.files.countP
            (fun f => f.tags.contains pc.1.1 && f.tags.contains pc.1.2)
            ≤ s.files.countP (fun f => f.tags.contains pc.1.1) :=
          List.countP_mono_left (fun f _ hb => (Bool.and_eq_true _ _ ▸ hb).1)
        have husage1 := husage t1 ht1.2
        rw [ht1.1] at husage1
        omega
      show payloadInRange (pdTag s pc)
      unfold pdTag
      rw [hg1, hg2]
      show 0 ≤ tagStrength pc.2 (max t1.usage_count t2.usage_count)
        ∧ tagStrength pc.2 (max t1.usage_count t2.usage_count) ≤ 1
      exact tagStrength_range pc.2 _ (le_trans hchain (Nat.le_max_left _ _))
    · intro ff
      show payloadInRange (.similarity (calculate_tag_similarity ff.1 ff.2))
      exact calculate_tag_similarity_range ff.1 ff.2

/-! ### Witnesses: the theorems applied at concrete stores -/

unseal Rat.mul Rat.inv Rat.add in
/-- C1 witness: in the spec §8 scenario, tags A and B co-occur on two
files, so the graph holds the edge with weight 2 and strength 2/5. -/
theorem claim_C1_witness :
    (generate Graph.emptyGraph storeS "tags").findEdge tagA.tag_id tagB.tag_id
      = some (.cooccurrence 2 (2 / 5)) := by
  rw [(claim_C1_tags_cooccurrence_iff storeS Graph.emptyGraph tagA tagB
    (by decide) (by decide) (by decide) (by decide)).1]
  decide

unseal Rat.mul Rat.inv Rat.add in
/-- C2 (amended) witness: mode "xyz" yields the empty graph, and
find_hubs with topN = -2 drops the last two ranked entries. -/
theorem claim_C2_amended_witness :
    generate Graph.emptyGraph storeS "xyz" = Graph.emptyGraph
    ∧ (generate Graph.emptyGraph storeS "tags").find_hubs (-2) = [("a", 1)] := by
  constructor
  · exact claim_C2_amended.1 Graph.emptyGraph storeS "xyz"
      (by decide) (by decide) (by decide)
  · rw [claim_C2_amended.2 (generate Graph.emptyGraph storeS "tags") (-2) (by decide)]
    decide

unseal Rat.mul Rat.inv Rat.add in
/-- C4 (amended) witness: the spec §8 store has consistent usage counts,
and the strength 2/5 of its single cooccurrence edge lies in [0, 1]. -/
theorem claim_C4_witness : payloadInRange (EdgeData.cooccurrence 2 (2 / 5)) :=
  (claim_C4_payload_ranges Graph.emptyGraph storeS "tags").2 (by decide) (by decide)
    ("a", "b", EdgeData.cooccurrence 2 (2 / 5)) (by decide)

unseal Rat.mul Rat.inv Rat.add in
/-- C5 witness: files F1 and F2 share the exact tag set, Jaccard 1 > 0.3,
so the files-mode graph holds their similarity edge of weight 1. -/
theorem claim_C5_witness :
    (generate Graph.emptyGraph storeS "files").findEdge fileF1.file_id fileF2.file_id
      = some (.similarity 1) := by
  rw [claim_C5_files_similarity_iff storeS Graph.emptyGraph fileF1 fileF2
    (by decide) (by decide) (by decide) (by decide)]
  decide

unseal Rat.mul Rat.inv Rat.add in
/-- C7 witness: recommending for F4 (tags = [a]) yields tag b, which is
indeed not among F4's tags. -/
theorem claim_C7_witness : "b" ∉ fileF4.tags :=
  claim_C7_recommend_excludes_existing storeS (generate Graph.emptyGraph storeS "tags")
    "f4" 5 fileF4 (by decide) ("b", 2) (by decide)

/-- C8 witness: a missing file id and a tagless file both produce an
empty recommendation list. -/
theorem claim_C8_witness :
    DataStore.recommend_tags storeE (generate Graph.emptyGraph storeE "tags") "zzz" 5 = []
    ∧ DataStore.recommend_tags storeE (generate Graph.emptyGraph storeE "tags") "f9" 5
        = [] := by
  constructor
  · exact (claim_C8_recommend_missing_or_empty storeE _ "zzz" 5).1 (by decide)
  · exact (claim_C8_recommend_missing_or_empty storeE _ "f9" 5).2 ⟨"f9", "F9", 0, []⟩
      (by decide) (by decide)

end FileMap
